import Mathlib

/-!
Verification of the document-intelligence pipeline: a shallow embedding of
the structure extractor (`project_1a.py`) and the persona-driven analyzer
(`project_1b.py`), followed by theorems settling the specification claims.

Strings are modelled as Lean `String` (Python `len`/slicing operate on code
points, as does `String.length`/our `pyTake`).  Font sizes, coordinates and
similarity scores are modelled as exact rationals.  The TF-IDF/LSA scoring
step itself is floating-point library code; it enters the embedding as an
oracle assigning each corpus a similarity list (`some sims`) or a failure
(`none`), exactly the two ways the `try`/`except` blocks in the source can
go.  Everything downstream of the similarity numbers is embedded faithfully.
-/

/-! ## String helpers (models of the Python string operations used) -/

/-- Model of Python `str.strip()` on a character list: drop ASCII whitespace
from both ends. -/
def stripChars (cs : List Char) : List Char :=
  ((cs.dropWhile Char.isWhitespace).reverse.dropWhile Char.isWhitespace).reverse

/-- Model of Python `str.strip()`. -/
def pyStrip (s : String) : String :=
  String.mk (stripChars s.toList)

/-- Model of Python slicing `s[:n]` (first `n` code points). -/
def pyTake (n : Nat) (s : String) : String :=
  String.mk (s.toList.take n)

/-- ASCII alphanumeric test, the character class `[a-zA-Z0-9]` of the
source's regexes. -/
def isAlnum (c : Char) : Bool :=
  c.isAlpha || c.isDigit

/-- Model of `re.sub(r'^[^a-zA-Z0-9]*', '', s)` followed by
`re.sub(r'[^a-zA-Z0-9]*$', '', s)`: strip non-alphanumeric characters from
both ends. -/
def stripNonAlnumEnds (s : String) : String :=
  String.mk (((s.toList.dropWhile (fun c => !isAlnum c)).reverse.dropWhile
    (fun c => !isAlnum c)).reverse)

/-- Model of the heading clean-up in `_extract_headings_by_font_analysis`:
`re.sub(r'^[^a-zA-Z0-9]*', '', text)` then `re.sub(r'[.]*$', '', ...).strip()`. -/
def cleanHeading1a (s : String) : String :=
  let s1 := s.toList.dropWhile (fun c => !isAlnum c)
  let s2 := (s1.reverse.dropWhile (fun c => c = '.')).reverse
  pyStrip (String.mk s2)

/-- Python `str.lower()` (ASCII). -/
def pyLower (s : String) : String :=
  String.mk (s.toList.map Char.toLower)

/-- `s.startswith(lit)` on code points. -/
def startsWithLit (lit s : String) : Bool :=
  lit.toList.isPrefixOf s.toList

/-- Python `content.split('\n\n')` on character lists: scan left to right,
breaking at each non-overlapping occurrence of the two-character separator. -/
def splitNN (cur : List Char) : List Char → List (List Char)
  | '\n' :: '\n' :: rest => cur.reverse :: splitNN [] rest
  | c :: rest => splitNN (c :: cur) rest
  | [] => [cur.reverse]

/-- Python `content.split('\n\n')`. -/
def pySplitNN (s : String) : List String :=
  (splitNN [] s.toList).map String.mk

/-! ## Exact rational arithmetic

The pipeline's numeric values (font sizes, coordinates, similarity scores)
are rationals.  The operations below compute through `mkRat` on
numerator/denominator so that every concrete value a witness mentions can be
evaluated by the kernel; the bridge lemmas `qAdd_eq`, `qMul_eq`, `qSum_eq`
and `qDivNat_eq` identify them with the field operations on `ℚ`. -/

def qAdd (a b : ℚ) : ℚ := mkRat (a.num * b.den + b.num * a.den) (a.den * b.den)

def qMul (a b : ℚ) : ℚ := mkRat (a.num * b.num) (a.den * b.den)

def qSum (l : List ℚ) : ℚ := l.foldr qAdd 0

def qDivNat (a : ℚ) (n : Nat) : ℚ := mkRat a.num (a.den * n)

theorem qAdd_eq (a b : ℚ) : qAdd a b = a + b := by
  rw [qAdd, Rat.mkRat_eq_div]
  push_cast
  conv_rhs => rw [← Rat.num_div_den a, ← Rat.num_div_den b]
  rw [div_add_div _ _ (by exact_mod_cast a.den_nz) (by exact_mod_cast b.den_nz)]
  ring_nf

theorem qMul_eq (a b : ℚ) : qMul a b = a * b := by
  rw [qMul, Rat.mkRat_eq_div]
  push_cast
  conv_rhs => rw [← Rat.num_div_den a, ← Rat.num_div_den b]
  rw [div_mul_div_comm]

theorem qSum_eq (l : List ℚ) : qSum l = l.sum := by
  induction l with
  | nil => rfl
  | cons a t ih => rw [qSum, List.foldr_cons, qAdd_eq, ← qSum, ih, List.sum_cons]

theorem qDivNat_eq (a : ℚ) (n : Nat) : qDivNat a n = a / n := by
  rw [qDivNat, Rat.mkRat_eq_div]
  push_cast
  conv_rhs => rw [← Rat.num_div_den a]
  rw [div_div]

/-! ## Models of the source's regular expressions -/

/-- Consume one or more digits (`\d+`), returning the rest. -/
def scanDigits (cs : List Char) : Option (List Char) :=
  let ds := cs.takeWhile Char.isDigit
  if ds.isEmpty then none else some (cs.drop ds.length)

/-- Consume one or more whitespace characters (`\s+`), returning the rest. -/
def scanWs (cs : List Char) : Option (List Char) :=
  let ws := cs.takeWhile Char.isWhitespace
  if ws.isEmpty then none else some (cs.drop ws.length)

/-- Consume an optional `.` (`\.?`). -/
def scanDot : List Char → List Char
  | '.' :: r => r
  | cs => cs

/-- Consume the literal characters `lit`. -/
def scanLit : List Char → List Char → Option (List Char)
  | [], cs => some cs
  | _ :: _, [] => none
  | l :: ls, c :: cs => if c = l then scanLit ls cs else none

/-- `re.match(r'^(\d+\.?\s+)', ·)`. -/
def matchNumWs (cs : List Char) : Bool :=
  (scanDigits cs |>.bind fun r => scanWs (scanDot r)).isSome

/-- `re.match(r'^(\d+\.\d+\.?\s+)', ·)`. -/
def matchNum2Ws (cs : List Char) : Bool :=
  (scanDigits cs |>.bind (scanLit ['.']) |>.bind scanDigits |>.bind
    fun r => scanWs (scanDot r)).isSome

/-- `re.match(r'^(\d+\.\d+\.\d+\.?\s+)', ·)`. -/
def matchNum3Ws (cs : List Char) : Bool :=
  (scanDigits cs |>.bind (scanLit ['.']) |>.bind scanDigits |>.bind
    (scanLit ['.']) |>.bind scanDigits |>.bind
    fun r => scanWs (scanDot r)).isSome

/-- `re.match(r'^([IVX]+\.?\s+)', ·)`. -/
def matchRomanWs (cs : List Char) : Bool :=
  let rs := cs.takeWhile (fun c => c = 'I' || c = 'V' || c = 'X')
  !rs.isEmpty && (scanWs (scanDot (cs.drop rs.length))).isSome

/-- `re.match(r'^([A-Z]\.?\s+)', ·)`. -/
def matchUpperWs : List Char → Bool
  | c :: r => c.isUpper && (scanWs (scanDot r)).isSome
  | [] => false

/-- `re.match(r'^([a-z]\.?\s+)', ·)`. -/
def matchLowerWs : List Char → Bool
  | c :: r => c.isLower && (scanWs (scanDot r)).isSome
  | [] => false

/-- `re.match(r'^(Chapter\s+\d+)', ·)`. -/
def matchChapterNum (cs : List Char) : Bool :=
  (scanLit "Chapter".toList cs |>.bind scanWs |>.bind scanDigits).isSome

/-- `re.match(r'^(Section\s+\d+)', ·)`. -/
def matchSectionNum (cs : List Char) : Bool :=
  (scanLit "Section".toList cs |>.bind scanWs |>.bind scanDigits).isSome

/-- `any(re.match(pattern, text) for pattern in self.heading_patterns)` over
the eight patterns of `PDFStructureExtractor.__init__`. -/
def headingPattern1a (s : String) : Bool :=
  let cs := s.toList
  matchNumWs cs || matchNum2Ws cs || matchNum3Ws cs || matchRomanWs cs ||
    matchUpperWs cs || matchLowerWs cs || matchChapterNum cs || matchSectionNum cs

/-- `re.match(r'^(\d+\.?\s+|Chapter|Section|Introduction|Conclusion|Abstract|References)',
block_text, re.IGNORECASE)` from `_extract_sections_from_document`. -/
def headingPattern1b (s : String) : Bool :=
  let low := pyLower s
  matchNumWs s.toList || startsWithLit "chapter" low || startsWithLit "section" low ||
    startsWithLit "introduction" low || startsWithLit "conclusion" low ||
    startsWithLit "abstract" low || startsWithLit "references" low

/-! ## Data model: spans, lines, blocks, pages, documents -/

/-- A text span produced by the layout extractor: text, font size, the
flags bitmask (bit 4 marks bold) and the top-edge y-coordinate `bbox[1]`. -/
structure Span where
  text : String
  size : ℚ
  flags : Nat
  y0 : ℚ
deriving Repr, DecidableEq

structure Line where
  spans : List Span
deriving Repr, DecidableEq

structure Block where
  lines : List Line
deriving Repr, DecidableEq

structure Page where
  height : ℚ
  blocks : List Block
deriving Repr, DecidableEq

/-- A table-of-contents triple as returned by `doc.get_toc()`. -/
structure TocEntry where
  level : Nat
  title : String
  page : Nat
deriving Repr, DecidableEq

/-- A decoded document: optional metadata title, table of contents, pages. -/
structure Doc where
  metadata_title : Option String
  toc : List TocEntry
  pages : List Page
deriving Repr, DecidableEq

structure OutlineEntry where
  level : String
  text : String
  page : Nat
deriving Repr, DecidableEq

/-! ## Structure extraction (`project_1a.py`) -/

/-- One pass of the page-1 span scan in `_extract_title`: spans whose
top-edge `bbox[1]` lies in the top 40% of the page and whose stripped text
has length > 5 become `(text, font_size, y)` candidates. -/
def spanTitleCand (height : ℚ) (sp : Span) : Option (String × ℚ × ℚ) :=
  let text := pyStrip sp.text
  if sp.y0 < qMul height (mkRat 2 5) ∧ 5 < text.length then some (text, sp.size, sp.y0)
  else none

/-- All title candidates of a page, in span order. -/
def titleCandidates (pg : Page) : List (String × ℚ × ℚ) :=
  pg.blocks.flatMap fun b =>
    b.lines.flatMap fun ln => ln.spans.filterMap (spanTitleCand pg.height)

/-- The ordering of `title_candidates.sort(key=lambda x: (-x[1], x[2]))`:
larger font size first, then smaller y first.  (The source uses Python's
stable sort; a stable sort under a total transitive relation has a unique
result, so insertion sort below models it exactly.) -/
def candRel (a b : String × ℚ × ℚ) : Prop :=
  b.2.1 < a.2.1 ∨ (b.2.1 = a.2.1 ∧ a.2.2 ≤ b.2.2)

instance : DecidableRel candRel := fun a b =>
  inferInstanceAs (Decidable (b.2.1 < a.2.1 ∨ (b.2.1 = a.2.1 ∧ a.2.2 ≤ b.2.2)))

instance : IsTotal (String × ℚ × ℚ) candRel where
  total a b := by
    rcases lt_trichotomy a.2.1 b.2.1 with h | h | h
    · exact Or.inr (Or.inl h)
    · rcases le_total a.2.2 b.2.2 with h2 | h2
      · exact Or.inl (Or.inr ⟨h.symm, h2⟩)
      · exact Or.inr (Or.inr ⟨h, h2⟩)
    · exact Or.inl (Or.inl h)

instance : IsTrans (String × ℚ × ℚ) candRel where
  trans a b c hab hbc := by
    rcases hab with h1 | ⟨e1, l1⟩ <;> rcases hbc with h2 | ⟨e2, l2⟩
    · exact Or.inl (lt_trans h2 h1)
    · exact Or.inl (e2 ▸ h1)
    · exact Or.inl (e1 ▸ h2)
    · exact Or.inr ⟨e2.trans e1, le_trans l1 l2⟩

/-- `PDFStructureExtractor._extract_title`. -/
def extract_title (doc : Doc) : String :=
  let mt := pyStrip (doc.metadata_title.getD "")
  if mt ≠ "" ∧ 3 < mt.length then mt
  else
    match doc.pages with
    | [] => "Unknown Document"
    | pg :: _ =>
      match ((titleCandidates pg).insertionSort candRel).head? with
      | none => "Unknown Document"
      | some c =>
        let pt := stripNonAlnumEnds c.1
        if 3 < pt.length then pt else "Unknown Document"

/-- A line record of `all_text_blocks` in
`_extract_headings_by_font_analysis`. -/
structure TextBlock where
  text : String
  font_size : ℚ
  page : Nat
  is_bold : Bool
deriving Repr, DecidableEq

/-- Line text as assembled in `_extract_headings_by_font_analysis`:
stripped span texts joined with single spaces, then stripped. -/
def lineText1a (ln : Line) : String :=
  pyStrip (ln.spans.foldl
    (fun acc sp => let t := pyStrip sp.text; if t ≠ "" then acc ++ t ++ " " else acc) "")

/-- Font sizes of the spans with non-empty stripped text. -/
def lineSizes (ln : Line) : List ℚ :=
  ln.spans.filterMap fun sp => if pyStrip sp.text ≠ "" then some sp.size else none

/-- Flag words of the spans with non-empty stripped text. -/
def lineFlagsL (ln : Line) : List Nat :=
  ln.spans.filterMap fun sp => if pyStrip sp.text ≠ "" then some sp.flags else none

/-- `sum(...) / len(...) if line_font_sizes else 0`. -/
def avgQ (l : List ℚ) : ℚ :=
  if l.isEmpty then 0 else qDivNat (qSum l) l.length

/-- `any(flag & 2**4 for flag in flags)`. -/
def isBoldFlags (fl : List Nat) : Bool :=
  fl.any fun f => f &&& 16 ≠ 0

/-- The `all_text_blocks` record of one line (kept when the merged text is
non-empty with length > 2). -/
def textBlockOfLine (pageNo : Nat) (ln : Line) : Option TextBlock :=
  let t := lineText1a ln
  if t ≠ "" ∧ 2 < t.length then
    some ⟨t, avgQ (lineSizes ln), pageNo, isBoldFlags (lineFlagsL ln)⟩
  else none

/-- `all_text_blocks` over the whole document (pages are 1-indexed). -/
def allTextBlocks (pages : List Page) : List TextBlock :=
  pages.enum.flatMap fun pi =>
    pi.2.blocks.flatMap fun b => b.lines.filterMap (textBlockOfLine (pi.1 + 1))

/-- Descending order on rationals (`font_sizes.sort(reverse=True)`). -/
def descQRel (a b : ℚ) : Prop := b ≤ a

instance : DecidableRel descQRel := fun a b => inferInstanceAs (Decidable (b ≤ a))

instance : IsTotal ℚ descQRel := ⟨fun a b => le_total b a⟩

instance : IsTrans ℚ descQRel := ⟨fun _ _ _ hab hbc => le_trans hbc hab⟩

/-- First-occurrence keys of a list, in iteration order (the keys of a
Python `Counter` built from it). -/
def uniqKeys (seen : List ℚ) : List ℚ → List ℚ
  | [] => []
  | x :: t => if x ∈ seen then uniqKeys seen t else x :: uniqKeys (x :: seen) t

/-- Scan `keys`, keeping the earliest key of maximal multiplicity in `l`
(`Counter(l).most_common(1)[0][0]`). -/
def firstModeAux (l : List ℚ) : List ℚ → ℚ → ℚ
  | [], best => best
  | x :: t, best => if l.count best < l.count x then firstModeAux l t x else firstModeAux l t best

/-- `font_sizes.sort(reverse=True); Counter(font_sizes).most_common(1)[0][0]`:
the most common font size, ties resolved to the largest (the first key
inserted from the descending-sorted list). -/
def baseFontSize (sizes : List ℚ) : ℚ :=
  let sorted := sizes.insertionSort descQRel
  match uniqKeys [] sorted with
  | [] => 0
  | k :: ks => firstModeAux sorted ks k

/-- The heading-level decision of `_extract_headings_by_font_analysis`
(`None` when the line is longer than 200 characters or matches no rule). -/
def levelOf (base : ℚ) (b : TextBlock) : Option String :=
  if 200 < b.text.length then none
  else if b.font_size ≥ qMul base (mkRat 14 10) ∨
      (b.is_bold ∧ b.font_size ≥ qMul base (mkRat 11 10)) then some "H1"
  else if b.font_size ≥ qMul base (mkRat 12 10) ∨
      (b.is_bold ∧ headingPattern1a b.text) then some "H2"
  else if b.font_size ≥ qMul base (mkRat 11 10) ∨ headingPattern1a b.text then some "H3"
  else none

/-- A classified line becomes a heading entry when its cleaned text has
length in (2, 150). -/
def headingOfBlock (base : ℚ) (b : TextBlock) : Option OutlineEntry :=
  match levelOf base b with
  | none => none
  | some lvl =>
    let clean := cleanHeading1a b.text
    if 2 < clean.length ∧ clean.length < 150 then some ⟨lvl, clean, b.page⟩ else none

/-- The duplicate-removal loop: keep a heading when its
`(text.lower(), page)` key is unseen. -/
def dedupHeadings (seen : List (String × Nat)) : List OutlineEntry → List OutlineEntry
  | [] => []
  | h :: t =>
    let k := (pyLower h.text, h.page)
    if k ∈ seen then dedupHeadings seen t
    else h :: dedupHeadings (k :: seen) t

/-- Ascending page order (`unique_headings.sort(key=lambda x: x["page"])`). -/
def pageRel (a b : OutlineEntry) : Prop := a.page ≤ b.page

instance : DecidableRel pageRel := fun a b => inferInstanceAs (Decidable (a.page ≤ b.page))

instance : IsTotal OutlineEntry pageRel := ⟨fun a b => Nat.le_total a.page b.page⟩

instance : IsTrans OutlineEntry pageRel := ⟨fun _ _ _ => Nat.le_trans⟩

/-- `PDFStructureExtractor._extract_headings_by_font_analysis`. -/
def extract_headings_by_font_analysis (pages : List Page) : List OutlineEntry :=
  let blocks := allTextBlocks pages
  let sizes := blocks.map (·.font_size)
  if sizes.isEmpty then []
  else
    let base := baseFontSize sizes
    let headings := blocks.filterMap (headingOfBlock base)
    (dedupHeadings [] headings).insertionSort pageRel

/-- `f"H{min(level, 3)}"`. -/
def levelStr (n : Nat) : String :=
  "H" ++ toString (min n 3)

/-- The TOC-to-outline mapping performed by the loop body of
`_extract_outline`: level `f"H{min(level, 3)}"`, text `title.strip()`, page
unchanged. -/
def tocMapEntry (e : TocEntry) : OutlineEntry :=
  ⟨levelStr e.level, pyStrip e.title, e.page⟩

/-- `PDFStructureExtractor._extract_outline`. -/
def extract_outline (doc : Doc) : List OutlineEntry :=
  let fromToc := (doc.toc.take 50).map tocMapEntry
  let outline := if fromToc.length < 3 then extract_headings_by_font_analysis doc.pages
    else fromToc
  outline.take 50

/-! ## Persona-driven analysis (`project_1b.py`) -/

/-- Line text as assembled in `_extract_sections_from_document`: stripped
span texts joined with spaces; the trailing space is kept (the source only
strips when testing emptiness). -/
def lineTextRaw1b (ln : Line) : String :=
  ln.spans.foldl
    (fun acc sp => let t := pyStrip sp.text; if t ≠ "" then acc ++ t ++ " " else acc) ""

/-- `block_text`: line texts (with their trailing space) joined by newlines,
then stripped. -/
def blockText1b (b : Block) : String :=
  pyStrip (b.lines.foldl
    (fun acc ln => let lt := lineTextRaw1b ln
      if pyStrip lt ≠ "" then acc ++ lt ++ "\n" else acc) "")

/-- `font_sizes` of a block: sizes of all spans (with non-empty stripped
text) of the lines contributing text. -/
def blockFontSizes (b : Block) : List ℚ :=
  b.lines.foldl
    (fun acc ln => if pyStrip (lineTextRaw1b ln) ≠ "" then acc ++ lineSizes ln else acc) []

/-- The value of `line_flags` after the line loop: the loop variable leaks,
so only the last line's span flags remain (each iteration overwrites it). -/
def lastLineFlags (b : Block) : List Nat :=
  b.lines.foldl (fun _ ln => lineFlagsL ln) []

/-- `np.mean(font_sizes) if font_sizes else 12`. -/
def avgFontSize1b (b : Block) : ℚ :=
  let fs := blockFontSizes b
  if fs.isEmpty then 12 else qDivNat (qSum fs) fs.length

/-- The heading test of `_extract_sections_from_document`:
`(is_bold and is_short) or has_heading_pattern or avg_font_size > 14`, with
`is_bold` read from the leaked `line_flags` of the last line. -/
def isHeadingBlock (b : Block) : Bool :=
  let bt := blockText1b b
  (isBoldFlags (lastLineFlags b) && bt.length < 100) || headingPattern1b bt ||
    decide (avgFontSize1b b > 14)

/-- The spec's reading of the same test (the claim under scrutiny): the bold
flag is computed over all of the block's spans, not just the last line's. -/
def specBlockIsBold (b : Block) : Bool :=
  isBoldFlags (b.lines.foldl (fun acc ln => acc ++ lineFlagsL ln) [])

/-- A section as emitted by the segmenter. -/
structure Section where
  document : String
  page_number : Nat
  section_title : String
  content : String
deriving Repr, DecidableEq

/-- The mutable `current_section` accumulator. -/
structure SecAcc where
  title : String
  content : String
  page : Nat
deriving Repr, DecidableEq

/-- Emission of the accumulator (used both at a heading boundary and at end
of document): a section appears exactly when the stripped content is longer
than 50 characters, with `"Untitled Section"` substituted for an empty
title. -/
def flushAcc (docName : String) (acc : SecAcc) : List Section :=
  if 50 < (pyStrip acc.content).length then
    [{ document := docName, page_number := acc.page,
       section_title := if acc.title = "" then "Untitled Section" else acc.title,
       content := pyStrip acc.content }]
  else []

/-- One block of the segmentation loop. -/
def stepBlock (docName : String) (pageNo : Nat) (st : List Section × SecAcc)
    (b : Block) : List Section × SecAcc :=
  let secs := st.1
  let acc := st.2
  let bt := blockText1b b
  if bt = "" then (secs, acc)
  else if isHeadingBlock b ∧ pyStrip acc.content ≠ "" then
    (secs ++ flushAcc docName acc, ⟨pyTake 100 bt, "", pageNo⟩)
  else if isHeadingBlock b ∧ acc.title = "" then
    (secs, ⟨pyTake 100 bt, acc.content, pageNo⟩)
  else
    (secs, ⟨acc.title, acc.content ++ bt ++ "\n\n", acc.page⟩)

/-- `DocumentIntelligenceAnalyzer._extract_sections_from_document`. -/
def extract_sections_from_document (pages : List Page) (docName : String) :
    List Section :=
  let st := pages.enum.foldl
    (fun st pi => pi.2.blocks.foldl (stepBlock docName (pi.1 + 1)) st)
    ([], ⟨"", "", 1⟩)
  st.1 ++ flushAcc docName st.2

/-! ## Relevance ranking (`_score_sections`) -/

/-- Descending similarity, the order of
`scored_sections.sort(key=lambda x: x["importance_rank"], reverse=True)`;
ties are broken by list position because the sort is stable. -/
def simRel (a b : Section × ℚ) : Prop := b.2 ≤ a.2

instance : DecidableRel simRel := fun a b => inferInstanceAs (Decidable (b.2 ≤ a.2))

instance : IsTotal (Section × ℚ) simRel := ⟨fun a b => le_total b.2 a.2⟩

instance : IsTrans (Section × ℚ) simRel := ⟨fun _ _ _ hab hbc => le_trans hbc hab⟩

/-- The stable descending sort of the `(section, similarity)` pairs. -/
def sortScored (sections : List Section) (sims : List ℚ) : List (Section × ℚ) :=
  (sections.zip sims).insertionSort simRel

/-- The successful branch of `_score_sections`: sort by similarity
descending, then overwrite `importance_rank` with the 1-based position. -/
def scoreSuccess (sections : List Section) (sims : List ℚ) : List (Section × Nat) :=
  (sortScored sections sims).enum.map fun p => (p.2.1, p.1 + 1)

/-- `DocumentIntelligenceAnalyzer._score_sections`, with the
TF-IDF/LSA/cosine pipeline abstracted into `simResult`: `some sims` is a
successful scoring pass (one similarity per section), `none` is the raising
case caught by the `except` branch. -/
def score_sections (sections : List Section) (simResult : Option (List ℚ)) :
    List (Section × Nat) :=
  if sections.isEmpty then []
  else
    match simResult with
    | some sims => scoreSuccess sections sims
    | none => sections.enum.map fun p => (p.2, p.1 + 1)

/-! ## Subsection refinement (`_generate_subsections`) -/

/-- `[p.strip() for p in content.split('\n\n') if len(p.strip()) > 100]`. -/
def paragraphsOf (content : String) : List String :=
  ((pySplitNN content).map pyStrip).filter fun p => 100 < p.length

/-- The paragraph pool actually scored: the qualifying paragraphs, or the
first 500 characters of the content when none qualify. -/
def candParas (content : String) : List String :=
  let ps := paragraphsOf content
  if ps = [] then [pyTake 500 content] else ps

/-- Index of the first occurrence of `a`. -/
def firstIdxOf (a : ℚ) : List ℚ → Nat
  | [] => 0
  | x :: t => if x = a then 0 else firstIdxOf a t + 1

/-- `np.argmax`: the index of the first occurrence of the maximum. -/
def npArgmax : List ℚ → Nat
  | [] => 0
  | x :: t => firstIdxOf (t.foldl max x) (x :: t)

/-- `p[:300] + "..." if len(p) > 300 else p`. -/
def truncate300 (p : String) : String :=
  if 300 < p.length then pyTake 300 p ++ "..." else p

structure Subsection where
  document : String
  section_title : String
  refined_text : String
  page_number : Nat
deriving Repr, DecidableEq

/-- One iteration of `_generate_subsections`, with the paragraph scoring
pass abstracted into `oracle`: `some sims` is the similarity list of the
paragraph pool, `none` the raising case handled by the `except` fallback
(first paragraph, same truncation). -/
def refineSection (oracle : Section → Option (List ℚ)) (s : Section) : Subsection :=
  let paragraphs := candParas s.content
  let refined :=
    match oracle s with
    | some sims => truncate300 (paragraphs.getD (npArgmax sims) "")
    | none => truncate300 (paragraphs.headD "")
  ⟨s.document, s.section_title, refined, s.page_number⟩

/-- `DocumentIntelligenceAnalyzer._generate_subsections` (the loop runs over
`top_sections[:10]` and appends one subsection per iteration on both the
success and the fallback path). -/
def generate_subsections (oracle : Section → Option (List ℚ))
    (top_sections : List Section) : List Subsection :=
  (top_sections.take 10).map (refineSection oracle)

/-! ## Helper lemmas -/

theorem toList_length (s : String) : s.toList.length = s.length := rfl

theorem pyTake_length (n : Nat) (s : String) : (pyTake n s).length = min n s.length := by
  simp [pyTake, toList_length]

theorem dropWhile_of_append_eq {α} {p : α → Bool} {u v t : List α}
    (hu : u.dropWhile p = u) (h : v ++ t = u) : v.dropWhile p = v := by
  cases v with
  | nil => rfl
  | cons a w =>
    have ha : ¬ p a := by
      intro hpa
      have h1 : u.dropWhile p = (w ++ t).dropWhile p := by
        rw [← h]; simp [List.dropWhile_cons_of_pos hpa]
      have h2 : (u.dropWhile p).length ≤ (w ++ t).length := by
        rw [h1]; exact (List.dropWhile_sublist p).length_le
      rw [hu, ← h] at h2
      simp at h2
    simp [List.dropWhile_cons_of_neg ha]

theorem exists_append_dropWhile {α} (p : α → Bool) (l : List α) :
    ∃ s, s ++ l.dropWhile p = l := by
  induction l with
  | nil => exact ⟨[], rfl⟩
  | cons a t ih =>
    by_cases h : p a
    · obtain ⟨s, hs⟩ := ih
      exact ⟨a :: s, by simp [List.dropWhile_cons_of_pos h, hs]⟩
    · exact ⟨[], by simp [List.dropWhile_cons_of_neg h]⟩

theorem stripChars_idem (cs : List Char) : stripChars (stripChars cs) = stripChars cs := by
  unfold stripChars
  set p := Char.isWhitespace with hp
  set u := cs.dropWhile p with hu
  set w := u.reverse.dropWhile p with hw
  have hufix : u.dropWhile p = u := by rw [hu]; exact List.dropWhile_idempotent p cs
  have h1 : w.reverse.dropWhile p = w.reverse := by
    obtain ⟨s, hs⟩ := exists_append_dropWhile p u.reverse
    rw [← hw] at hs
    have : w.reverse ++ s.reverse = u := by
      have := congrArg List.reverse hs
      simpa using this
    exact dropWhile_of_append_eq hufix this
  rw [h1]
  have h2 : w.reverse.reverse.dropWhile p = w := by
    rw [List.reverse_reverse, hw]
    exact List.dropWhile_idempotent p u.reverse
  rw [h2]

theorem pyStrip_idem (s : String) : pyStrip (pyStrip s) = pyStrip s := by
  unfold pyStrip
  simp only [String.toList]
  exact congrArg String.mk (stripChars_idem s.toList)

/-- The mean of a list of rationals. -/
def meanQ (l : List ℚ) : ℚ := l.sum / l.length

theorem meanQ_le_of_forall_le {B : List ℚ} {a : ℚ} (hB : B ≠ [])
    (h : ∀ b ∈ B, b ≤ a) : meanQ B ≤ a := by
  have hpos : 0 < (B.length : ℚ) := by
    have := List.length_pos.mpr hB
    exact_mod_cast this
  have hsum : B.sum ≤ B.length • a := List.sum_le_card_nsmul B a h
  rw [nsmul_eq_mul] at hsum
  rw [meanQ, div_le_iff₀ hpos]
  linarith [hsum]

theorem meanQ_le_meanQ {A B : List ℚ} (hA : A ≠ []) (hB : B ≠ [])
    (h : ∀ a ∈ A, ∀ b ∈ B, b ≤ a) : meanQ B ≤ meanQ A := by
  have hpos : 0 < (A.length : ℚ) := by
    have := List.length_pos.mpr hA
    exact_mod_cast this
  have hstep : ∀ a ∈ A, meanQ B ≤ a := fun a ha => meanQ_le_of_forall_le hB (h a ha)
  have hsum : A.length • meanQ B ≤ A.sum := List.card_nsmul_le_sum A (meanQ B) hstep
  rw [nsmul_eq_mul] at hsum
  show meanQ B ≤ A.sum / (A.length : ℚ)
  rw [le_div_iff₀ hpos]
  linarith [hsum]

theorem foldl_max_mem (x : ℚ) (t : List ℚ) : t.foldl max x ∈ x :: t := by
  induction t generalizing x with
  | nil => simp
  | cons a t ih =>
    simp only [List.foldl_cons]
    have h := ih (max x a)
    rcases List.mem_cons.mp h with h1 | h1
    · rw [h1]
      rcases max_choice x a with hc | hc
      · rw [hc]; exact List.mem_cons_self _ _
      · rw [hc]; exact List.mem_cons_of_mem _ (List.mem_cons_self _ _)
    · exact List.mem_cons_of_mem _ (List.mem_cons_of_mem _ h1)

theorem le_foldl_max (x : ℚ) (t : List ℚ) : ∀ y ∈ x :: t, y ≤ t.foldl max x := by
  induction t generalizing x with
  | nil => simp
  | cons a t ih =>
    intro y hy
    simp only [List.foldl_cons]
    rcases List.mem_cons.mp hy with rfl | hy1
    · exact le_trans (le_max_left y a) (ih (max y a) _ (List.mem_cons_self _ _))
    · rcases List.mem_cons.mp hy1 with rfl | hy2
      · exact le_trans (le_max_right x y) (ih (max x y) _ (List.mem_cons_self _ _))
      · exact ih (max x a) y (List.mem_cons_of_mem _ hy2)

theorem firstIdxOf_lt_length {a : ℚ} {l : List ℚ} (h : a ∈ l) :
    firstIdxOf a l < l.length := by
  induction l with
  | nil => cases h
  | cons x t ih =>
    by_cases hx : x = a
    · simp [firstIdxOf, hx]
    · have : a ∈ t := by
        rcases List.mem_cons.mp h with h1 | h1
        · exact absurd h1.symm hx
        · exact h1
      simp only [firstIdxOf, if_neg hx, List.length_cons]
      exact Nat.succ_lt_succ (ih this)

theorem getD_firstIdxOf {a : ℚ} {l : List ℚ} (h : a ∈ l) (d : ℚ) :
    l.getD (firstIdxOf a l) d = a := by
  induction l with
  | nil => cases h
  | cons x t ih =>
    by_cases hx : x = a
    · simp [firstIdxOf, hx]
    · have : a ∈ t := by
        rcases List.mem_cons.mp h with h1 | h1
        · exact absurd h1.symm hx
        · exact h1
      simp only [firstIdxOf, if_neg hx]
      simpa using ih this

theorem getD_ne_of_lt_firstIdxOf {a : ℚ} {l : List ℚ} {j : Nat}
    (h : j < firstIdxOf a l) (d : ℚ) : l.getD j d ≠ a := by
  induction l generalizing j with
  | nil => simp [firstIdxOf] at h
  | cons x t ih =>
    by_cases hx : x = a
    · simp [firstIdxOf, hx] at h
    · simp only [firstIdxOf, if_neg hx] at h
      cases j with
      | zero => simpa using hx
      | succ j => simpa using ih (Nat.lt_of_succ_lt_succ h) 

theorem getD_mem_of_lt {l : List ℚ} {j : Nat} (h : j < l.length) (d : ℚ) :
    l.getD j d ∈ l := by
  rw [List.getD_eq_getElem?_getD, List.getElem?_eq_getElem h]
  simp [List.getElem_mem h]

theorem npArgmax_spec (l : List ℚ) (h : l ≠ []) :
    npArgmax l < l.length
    ∧ (∀ j, j < l.length → l.getD j 0 ≤ l.getD (npArgmax l) 0)
    ∧ (∀ j, j < npArgmax l → l.getD j 0 < l.getD (npArgmax l) 0) := by
  match l with
  | [] => exact absurd rfl h
  | x :: t =>
    have hmem : t.foldl max x ∈ x :: t := foldl_max_mem x t
    have hmax : ∀ y ∈ x :: t, y ≤ t.foldl max x := le_foldl_max x t
    have hidx : npArgmax (x :: t) = firstIdxOf (t.foldl max x) (x :: t) := rfl
    have hgetD : (x :: t).getD (npArgmax (x :: t)) 0 = t.foldl max x := by
      rw [hidx]; exact getD_firstIdxOf hmem 0
    refine ⟨?_, ?_, ?_⟩
    · rw [hidx]; exact firstIdxOf_lt_length hmem
    · intro j hj
      rw [hgetD]
      exact hmax _ (getD_mem_of_lt hj 0)
    · intro j hj
      rw [hgetD]
      rw [hidx] at hj
      have hne : (x :: t).getD j 0 ≠ t.foldl max x := getD_ne_of_lt_firstIdxOf hj 0
      have hle : (x :: t).getD j 0 ≤ t.foldl max x := by
        have hjlen : j < (x :: t).length :=
          lt_of_lt_of_le hj (le_of_lt (firstIdxOf_lt_length hmem))
        exact hmax _ (getD_mem_of_lt hjlen 0)
      exact lt_of_le_of_ne hle hne

/-- The deduplication key of an outline entry. -/
def outlineKey (e : OutlineEntry) : String × Nat := (pyLower e.text, e.page)

theorem dedupHeadings_spec (l : List OutlineEntry) : ∀ seen,
    (dedupHeadings seen l).Pairwise (fun a b => outlineKey a ≠ outlineKey b)
    ∧ ∀ h ∈ dedupHeadings seen l, outlineKey h ∉ seen := by
  induction l with
  | nil => intro seen; simp [dedupHeadings]
  | cons h t ih =>
    intro seen
    by_cases hk : (pyLower h.text, h.page) ∈ seen
    · rw [show dedupHeadings seen (h :: t) = dedupHeadings seen t from by
        simp [dedupHeadings, hk]]
      exact ih seen
    · rw [show dedupHeadings seen (h :: t) =
        h :: dedupHeadings ((pyLower h.text, h.page) :: seen) t from by
        simp [dedupHeadings, hk]]
      refine ⟨List.Pairwise.cons ?_ (ih _).1, ?_⟩
      · intro b hb hEq
        have hnotin := (ih ((pyLower h.text, h.page) :: seen)).2 b hb
        apply hnotin
        rw [show outlineKey h = (pyLower h.text, h.page) from rfl] at hEq
        rw [← hEq]
        exact List.mem_cons_self _ _
      · intro x hx
        rcases List.mem_cons.mp hx with rfl | hx2
        · exact hk
        · intro hmem
          exact (ih ((pyLower h.text, h.page) :: seen)).2 x hx2
            (List.mem_cons_of_mem _ hmem)

/-- The emitted-section invariant: stripped content longer than 50. -/
def goodSec (s : Section) : Prop := 50 < (pyStrip s.content).length

theorem flushAcc_goodSec {docName : String} {acc : SecAcc} {s : Section}
    (h : s ∈ flushAcc docName acc) : goodSec s := by
  unfold flushAcc at h
  split at h
  · next hlen =>
    rcases List.mem_singleton.mp h with rfl
    show 50 < (pyStrip (pyStrip acc.content)).length
    rw [pyStrip_idem]
    exact hlen
  · cases h

theorem stepBlock_goodSec {docName : String} {pageNo : Nat}
    {st : List Section × SecAcc} {b : Block}
    (H : ∀ s ∈ st.1, goodSec s) :
    ∀ s ∈ (stepBlock docName pageNo st b).1, goodSec s := by
  simp only [stepBlock]
  split
  · exact H
  · split
    · intro s hs
      rcases List.mem_append.mp hs with h1 | h1
      · exact H s h1
      · exact flushAcc_goodSec h1
    · split
      · exact H
      · exact H

theorem foldl_preserve {α σ : Type} {P : σ → Prop} {f : σ → α → σ}
    (hf : ∀ st a, P st → P (f st a)) :
    ∀ (l : List α) (st : σ), P st → P (l.foldl f st) := by
  intro l
  induction l with
  | nil => intro st h; exact h
  | cons a t ih => intro st h; exact ih (f st a) (hf st a h)

theorem extract_sections_goodSec (pages : List Page) (docName : String) :
    ∀ s ∈ extract_sections_from_document pages docName, goodSec s := by
  have main : ∀ s ∈ (pages.enum.foldl
      (fun st pi => pi.2.blocks.foldl (stepBlock docName (pi.1 + 1)) st)
      (([], ⟨"", "", 1⟩) : List Section × SecAcc)).1, goodSec s := by
    refine foldl_preserve (P := fun st : List Section × SecAcc => ∀ s ∈ st.1, goodSec s)
      ?_ pages.enum ([], ⟨"", "", 1⟩) (by simp)
    intro st pi hst
    exact foldl_preserve (P := fun st : List Section × SecAcc => ∀ s ∈ st.1, goodSec s)
      (fun st b hst2 => stepBlock_goodSec hst2) pi.2.blocks st hst
  intro s hs
  simp only [extract_sections_from_document] at hs
  rcases List.mem_append.mp hs with h1 | h1
  · exact main s h1
  · exact flushAcc_goodSec h1

theorem truncate300_length (p : String) : (truncate300 p).length ≤ 303 := by
  unfold truncate300
  split
  · next h =>
    rw [String.length_append, pyTake_length]
    have : min 300 p.length = 300 := Nat.min_eq_left (le_of_lt h)
    rw [this]
    rfl
  · next h => omega

theorem truncate300_cases (p : String) :
    (truncate300 p = p ∧ p.length ≤ 300) ∨
    (truncate300 p = pyTake 300 p ++ "..." ∧ 300 < p.length) := by
  unfold truncate300
  split
  · next h => exact Or.inr ⟨rfl, h⟩
  · next h => exact Or.inl ⟨rfl, by omega⟩

theorem candParas_ne_nil (content : String) : candParas content ≠ [] := by
  simp only [candParas]
  split
  · simp
  · next h => exact h

theorem pairwise_of_forall_mem {α : Type} {R : α → α → Prop} {l : List α}
    (H : ∀ a ∈ l, ∀ b ∈ l, R a b) : l.Pairwise R := by
  rw [List.pairwise_iff_forall_sublist]
  intro a b h
  exact H a (h.subset (by simp)) b (h.subset (by simp))

theorem enumFrom_map_fst_add_one {α : Type} (l : List α) :
    ∀ i, ((l.enumFrom i).map fun p => p.1 + 1) = List.range' (i + 1) l.length := by
  induction l with
  | nil => intro i; rfl
  | cons a t ih =>
    intro i
    simp only [List.enumFrom, List.map_cons, List.length_cons]
    rw [ih (i + 1)]
    simp [List.range']

theorem map_enum_rank {α : Type} (l : List α) :
    (l.enum.map fun p => p.1 + 1) = List.range' 1 l.length := by
  rw [show l.enum = l.enumFrom 0 from rfl]
  simpa using enumFrom_map_fst_add_one l 0

theorem candParas_eq_of_ne {content : String} (h : paragraphsOf content ≠ []) :
    candParas content = paragraphsOf content := by
  simp only [candParas]
  rw [if_neg h]

theorem candParas_eq_of_nil {content : String} (h : paragraphsOf content = []) :
    candParas content = [pyTake 500 content] := by
  simp only [candParas]
  rw [if_pos h]

theorem paragraphsOf_mem {content p : String} (hp : p ∈ paragraphsOf content) :
    100 < p.length ∧ p ∈ (pySplitNN content).map pyStrip := by
  unfold paragraphsOf at hp
  refine ⟨?_, List.mem_of_mem_filter hp⟩
  have h1 := List.of_mem_filter hp
  simpa using h1

theorem refineSection_some {oracle : Section → Option (List ℚ)} {s : Section}
    {sims : List ℚ} (h : oracle s = some sims)
    (hlen : sims.length = (candParas s.content).length) :
    ∃ k, k < (candParas s.content).length
      ∧ (refineSection oracle s).refined_text =
          truncate300 ((candParas s.content).getD k "")
      ∧ (∀ j, j < sims.length → sims.getD j 0 ≤ sims.getD k 0)
      ∧ (∀ j, j < k → sims.getD j 0 < sims.getD k 0) := by
  have hne : sims ≠ [] := by
    intro heq
    apply candParas_ne_nil s.content
    rw [heq] at hlen
    exact (List.length_eq_zero.mp hlen.symm)
  obtain ⟨hlt, hmax, hfirst⟩ := npArgmax_spec sims hne
  refine ⟨npArgmax sims, ?_, ?_, hmax, hfirst⟩
  · rw [← hlen]; exact hlt
  · simp only [refineSection, h]

theorem refineSection_none {oracle : Section → Option (List ℚ)} {s : Section}
    (h : oracle s = none) :
    refineSection oracle s = ⟨s.document, s.section_title,
      truncate300 ((candParas s.content).headD ""), s.page_number⟩ := by
  simp only [refineSection, h]

/-! ## Claims -/

/-- A two-line block whose first line is bold and whose last line is not:
the claimed per-block bold flag is true, but the code's leaked `line_flags`
only sees the last line. -/
def blockC6 : Block :=
  ⟨[⟨[⟨"Overview of methods", 12, 16, 0⟩]⟩, ⟨[⟨"and results", 12, 0, 0⟩]⟩]⟩

/-- C6: the claim states a block is a heading iff
(bold over the block's spans AND stripped length < 100) OR heading-prefix
match OR average font size > 14.  The code computes the bold flag from the
leaked loop variable `line_flags`, i.e. from the last line's spans only.  On
`blockC6` the claim's predicate holds (a span is bold, the text is short)
yet the code classifies it as a non-heading. -/
theorem claimC6_code_bug :
    specBlockIsBold blockC6 = true
    ∧ (blockText1b blockC6).length < 100
    ∧ headingPattern1b (blockText1b blockC6) = false
    ∧ avgFontSize1b blockC6 ≤ 14
    ∧ isHeadingBlock blockC6 = false := by decide

/-- C7: every section emitted by the segmenter (the in-loop flushes and the
final end-of-document flush both go through `flushAcc`) has stripped content
length strictly greater than 50, and flushing an accumulator that holds no
title yields the title `"Untitled Section"`. -/
theorem claimC7 :
    (∀ (pages : List Page) (docName : String),
      ∀ s ∈ extract_sections_from_document pages docName,
        50 < (pyStrip s.content).length)
    ∧ (∀ (docName : String) (acc : SecAcc), acc.title = "" →
        ∀ s ∈ flushAcc docName acc, s.section_title = "Untitled Section") := by
  constructor
  · intro pages docName s hs
    exact extract_sections_goodSec pages docName s hs
  · intro docName acc hacc s hs
    unfold flushAcc at hs
    split at hs
    · rcases List.mem_singleton.mp hs with rfl
      simp [hacc]
    · cases hs

def contentC7 : String :=
  "the quick brown fox jumps over the lazy dog again and again tonight"

def pagesC7 : List Page := [⟨800, [⟨[⟨[⟨contentC7, 12, 0, 0⟩]⟩]⟩]⟩]

def secC7 : Section := ⟨"a.pdf", 1, "Untitled Section", contentC7⟩

theorem claimC7_witness :
    50 < (pyStrip secC7.content).length
    ∧ secC7.section_title = "Untitled Section" := by
  constructor
  · exact claimC7.1 pagesC7 "a.pdf" secC7 (by decide)
  · exact claimC7.2 "a.pdf" ⟨"", contentC7 ++ "\n\n", 1⟩ (by decide) secC7 (by decide)

/-- C2: when the scoring pass raises (`none`), sections keep their original
extraction order and receive the dense ranks 1..N instead of the call
raising; a one-section corpus gets rank 1 (never an empty result) on both
the failure and the success path; and when paragraph scoring raises in the
refiner, the subsection is built from the first entry of the paragraph pool
(which is never empty) rather than being omitted. -/
theorem claimC2 :
    (∀ (sections : List Section), sections ≠ [] →
      (score_sections sections none).map Prod.fst = sections
      ∧ (score_sections sections none).map Prod.snd = List.range' 1 sections.length)
    ∧ (∀ (s : Section) (simResult : Option (List ℚ)),
        (∀ sims, simResult = some sims → sims.length = 1) →
        score_sections [s] simResult = [(s, 1)])
    ∧ (∀ (oracle : Section → Option (List ℚ)) (s : Section), oracle s = none →
        refineSection oracle s = ⟨s.document, s.section_title,
          truncate300 ((candParas s.content).headD ""), s.page_number⟩
        ∧ candParas s.content ≠ []) := by
  refine ⟨?_, ?_, ?_⟩
  · intro sections hne
    have hE : sections.isEmpty = false := by
      simpa [List.isEmpty_iff] using hne
    constructor
    · simp only [score_sections, hE, Bool.false_eq_true, if_false]
      rw [List.map_map]
      exact List.enumFrom_map_snd 0 sections
    · simp only [score_sections, hE, Bool.false_eq_true, if_false]
      rw [List.map_map]
      exact map_enum_rank sections
  · intro s simResult hlen
    cases simResult with
    | none => rfl
    | some sims =>
      obtain ⟨q, rfl⟩ := List.length_eq_one.mp (hlen sims rfl)
      rfl
  · intro oracle s h
    exact ⟨refineSection_none h, candParas_ne_nil s.content⟩

def secC2 : Section := ⟨"b.pdf", 2, "T", "tiny"⟩

theorem claimC2_witness :
    score_sections [secC2] none = [(secC2, 1)]
    ∧ score_sections [secC2] (some [3/5]) = [(secC2, 1)]
    ∧ refineSection (fun _ => none) secC2 = ⟨"b.pdf", "T", "tiny", 2⟩ := by
  refine ⟨?_, ?_, ?_⟩
  · exact claimC2.2.1 secC2 none (by intro sims h; cases h)
  · exact claimC2.2.1 secC2 (some [3/5]) (by intro sims h; cases h; rfl)
  · have h := (claimC2.2.2 (fun _ => none) secC2 rfl).1
    rw [h]
    decide

/-- C1: on a successful scoring pass over a non-empty corpus, the ranked
output carries ranks that are exactly 1..N in output order (hence a dense
permutation of {1,...,N}), the output sections are a permutation of the
input sections ordered by the stable descending-similarity sort, the sorted
similarities are non-increasing, and — stability — the pairs holding any
fixed similarity value appear in exactly their original extraction order. -/
theorem claimC1 (sections : List Section) (sims : List ℚ)
    (hne : sections ≠ []) (hlen : sims.length = sections.length) :
    ((score_sections sections (some sims)).map Prod.snd =
        List.range' 1 sections.length)
    ∧ ((score_sections sections (some sims)).map Prod.fst =
        (sortScored sections sims).map Prod.fst)
    ∧ ((score_sections sections (some sims)).map Prod.fst).Perm sections
    ∧ (sortScored sections sims).Pairwise simRel
    ∧ (∀ q : ℚ, (sortScored sections sims).filter (fun x => decide (x.2 = q)) =
        (sections.zip sims).filter (fun x => decide (x.2 = q))) := by
  have hE : sections.isEmpty = false := by simpa [List.isEmpty_iff] using hne
  have hsc : score_sections sections (some sims) = scoreSuccess sections sims := by
    simp only [score_sections, hE, Bool.false_eq_true, if_false]
  have hlen2 : (sortScored sections sims).length = sections.length := by
    simp [sortScored, List.length_zip, hlen]
  refine ⟨?_, ?_, ?_, ?_, ?_⟩
  · rw [hsc]
    show ((sortScored sections sims).enum.map
      fun p => ((p.2.1, p.1 + 1) : Section × Nat)).map Prod.snd = _
    rw [List.map_map]
    rw [show (Prod.snd ∘ fun p : Nat × (Section × ℚ) => ((p.2.1, p.1 + 1) : Section × Nat)) =
      fun p : Nat × (Section × ℚ) => p.1 + 1 from rfl]
    rw [map_enum_rank, hlen2]
  · rw [hsc]
    show ((sortScored sections sims).enum.map
      fun p => ((p.2.1, p.1 + 1) : Section × Nat)).map Prod.fst = _
    rw [List.map_map]
    rw [show (Prod.fst ∘ fun p : Nat × (Section × ℚ) => ((p.2.1, p.1 + 1) : Section × Nat)) =
      (Prod.fst ∘ Prod.snd : Nat × (Section × ℚ) → Section) from rfl]
    rw [← List.map_map]
    rw [show (sortScored sections sims).enum = (sortScored sections sims).enumFrom 0 from rfl]
    rw [List.enumFrom_map_snd 0 (sortScored sections sims)]
  · rw [hsc]
    show (((sortScored sections sims).enum.map
      fun p => ((p.2.1, p.1 + 1) : Section × Nat)).map Prod.fst).Perm sections
    rw [List.map_map]
    rw [show (Prod.fst ∘ fun p : Nat × (Section × ℚ) => ((p.2.1, p.1 + 1) : Section × Nat)) =
      (Prod.fst ∘ Prod.snd : Nat × (Section × ℚ) → Section) from rfl]
    rw [← List.map_map]
    rw [show (sortScored sections sims).enum = (sortScored sections sims).enumFrom 0 from rfl]
    rw [List.enumFrom_map_snd 0 (sortScored sections sims)]
    have hperm : (sortScored sections sims).Perm (sections.zip sims) :=
      List.perm_insertionSort simRel (sections.zip sims)
    have := hperm.map Prod.fst
    rwa [List.map_fst_zip sections sims (le_of_eq hlen.symm)] at this
  · exact List.sorted_insertionSort simRel (sections.zip sims)
  · intro q
    set scored := sections.zip sims with hscored
    set p : Section × ℚ → Bool := fun x => decide (x.2 = q) with hp
    have h1 : (scored.filter p).Pairwise simRel := by
      apply pairwise_of_forall_mem
      intro a ha b hb
      have ha2 : a.2 = q := by simpa [hp] using (List.mem_filter.mp ha).2
      have hb2 : b.2 = q := by simpa [hp] using (List.mem_filter.mp hb).2
      show b.2 ≤ a.2
      rw [ha2, hb2]
    have h3 : List.Sublist (scored.filter p) (scored.insertionSort simRel) :=
      List.sublist_insertionSort h1 (List.filter_sublist scored)
    have h4 : (scored.filter p).filter p = scored.filter p :=
      List.filter_eq_self.mpr fun a ha => (List.mem_filter.mp ha).2
    have h5 : List.Sublist (scored.filter p) ((scored.insertionSort simRel).filter p) := by
      rw [← h4]
      exact List.Sublist.filter p h3
    have h6 : ((scored.insertionSort simRel).filter p).Perm (scored.filter p) :=
      (List.perm_insertionSort simRel scored).filter p
    have h7 : scored.filter p = (scored.insertionSort simRel).filter p :=
      h5.eq_of_length h6.length_eq.symm
    exact h7.symm

def secW1 : Section := ⟨"x.pdf", 1, "A", "alpha"⟩

def secW2 : Section := ⟨"x.pdf", 2, "B", "beta"⟩

theorem claimC1_witness :
    (score_sections [secW1, secW2] (some [mkRat 1 2, mkRat 3 4])).map Prod.snd =
      List.range' 1 2
    ∧ ((score_sections [secW1, secW2] (some [mkRat 1 2, mkRat 3 4])).map
        Prod.fst).Perm [secW1, secW2] := by
  have h := claimC1 [secW1, secW2] [mkRat 1 2, mkRat 3 4] (by decide) (by decide)
  exact ⟨h.1, h.2.2.1⟩

/-- C8: for each section of the top-10 input, the paragraph pool is the
blank-line split of the content stripped and filtered to stripped length
> 100, with the first 500 characters of the content as the single fallback
paragraph when no paragraph qualifies; on a successful scoring pass the
selected paragraph is a first argmax of the similarity list (every
similarity is at most the selected one, and everything strictly before it is
strictly smaller); the selected text is truncated at 300 characters with an
ellipsis appended exactly when longer; one subsection is produced per input
section and the batch never fails (the fallback path also yields one
subsection, from the first pooled paragraph). -/
theorem claimC8 (oracle : Section → Option (List ℚ)) (sections : List Section)
    (hlen : ∀ s ∈ sections.take 10, ∀ sims, oracle s = some sims →
      sims.length = (candParas s.content).length) :
    ((generate_subsections oracle sections).length = min 10 sections.length)
    ∧ (∀ p : String, (300 < p.length → truncate300 p = pyTake 300 p ++ "...")
        ∧ (p.length ≤ 300 → truncate300 p = p))
    ∧ ∀ s ∈ sections.take 10,
        candParas s.content ≠ []
        ∧ (paragraphsOf s.content ≠ [] → candParas s.content = paragraphsOf s.content)
        ∧ (paragraphsOf s.content = [] → candParas s.content = [pyTake 500 s.content])
        ∧ (∀ p ∈ paragraphsOf s.content, 100 < p.length ∧
            p ∈ (pySplitNN s.content).map pyStrip)
        ∧ (∀ sims, oracle s = some sims →
            ∃ k, k < (candParas s.content).length
              ∧ (refineSection oracle s).refined_text =
                  truncate300 ((candParas s.content).getD k "")
              ∧ (∀ j, j < sims.length → sims.getD j 0 ≤ sims.getD k 0)
              ∧ (∀ j, j < k → sims.getD j 0 < sims.getD k 0))
        ∧ (oracle s = none →
            (refineSection oracle s).refined_text =
              truncate300 ((candParas s.content).headD "")) := by
  refine ⟨?_, ?_, ?_⟩
  · simp [generate_subsections, Nat.min_comm]
  · intro p
    constructor
    · intro h
      unfold truncate300
      rw [if_pos h]
    · intro h
      unfold truncate300
      rw [if_neg (by omega)]
  · intro s hs
    refine ⟨candParas_ne_nil s.content, candParas_eq_of_ne, candParas_eq_of_nil,
      fun p hp => paragraphsOf_mem hp, ?_, ?_⟩
    · intro sims hsims
      exact refineSection_some hsims (hlen s hs sims hsims)
    · intro hnone
      rw [refineSection_none hnone]

def secC8 : Section := ⟨"c.pdf", 3, "S", "tiny"⟩

theorem claimC8_witness :
    (generate_subsections (fun _ => some [mkRat 3 5]) [secC8]).length = min 10 1 := by
  refine (claimC8 (fun _ => some [mkRat 3 5]) [secC8] ?_).1
  intro s hs sims hsims
  rcases List.mem_singleton.mp (by simpa using hs) with rfl
  cases hsims
  decide

/-- C10: each emitted subsection copies its source section's `document`,
`section_title` and `page_number` unchanged, and its `refined_text` is a
paragraph of that section's pool (a stripped blank-line paragraph, or the
first 500 characters of the content) either verbatim or cut at 300
characters with an ellipsis, for a total length of at most 303. -/
theorem claimC10 (oracle : Section → Option (List ℚ)) (sections : List Section)
    (hlen : ∀ s ∈ sections.take 10, ∀ sims, oracle s = some sims →
      sims.length = (candParas s.content).length) :
    ∀ i (hi : i < (generate_subsections oracle sections).length)
      (hj : i < (sections.take 10).length),
      ((generate_subsections oracle sections).get ⟨i, hi⟩).document =
          ((sections.take 10).get ⟨i, hj⟩).document
      ∧ ((generate_subsections oracle sections).get ⟨i, hi⟩).section_title =
          ((sections.take 10).get ⟨i, hj⟩).section_title
      ∧ ((generate_subsections oracle sections).get ⟨i, hi⟩).page_number =
          ((sections.take 10).get ⟨i, hj⟩).page_number
      ∧ ∃ p ∈ candParas ((sections.take 10).get ⟨i, hj⟩).content,
          (((generate_subsections oracle sections).get ⟨i, hi⟩).refined_text = p
            ∨ ((generate_subsections oracle sections).get ⟨i, hi⟩).refined_text =
                pyTake 300 p ++ "...")
          ∧ (((generate_subsections oracle sections).get ⟨i, hi⟩).refined_text).length ≤ 303 := by
  intro i hi hj
  set src := (sections.take 10).get ⟨i, hj⟩ with hsrc
  have hmem : src ∈ sections.take 10 := by
    rw [hsrc]; exact List.get_mem _ _ _
  have hget : (generate_subsections oracle sections).get ⟨i, hi⟩ =
      refineSection oracle src := by
    simp only [generate_subsections] at hi ⊢
    rw [List.get_map]
  rw [hget]
  have hpool : ∃ p ∈ candParas src.content,
      (refineSection oracle src).refined_text = truncate300 p := by
    cases horacle : oracle src with
    | none =>
      rw [refineSection_none horacle]
      obtain ⟨c, cs, hc⟩ : ∃ c cs, candParas src.content = c :: cs := by
        rcases hcp : candParas src.content with _ | ⟨c, cs⟩
        · exact absurd hcp (candParas_ne_nil src.content)
        · exact ⟨c, cs, rfl⟩
      refine ⟨c, by rw [hc]; exact List.mem_cons_self _ _, ?_⟩
      rw [hc]
      rfl
    | some sims =>
      obtain ⟨k, hk, heq, _, _⟩ := refineSection_some horacle (hlen src hmem sims horacle)
      refine ⟨(candParas src.content).getD k "", ?_, heq⟩
      rw [List.getD_eq_getElem?_getD, List.getElem?_eq_getElem hk]
      simp [List.getElem_mem hk]
  obtain ⟨p, hpmem, hp⟩ := hpool
  refine ⟨rfl, rfl, rfl, p, hpmem, ?_, ?_⟩
  · rw [hp]
    rcases truncate300_cases p with ⟨he, _⟩ | ⟨he, _⟩
    · exact Or.inl he
    · exact Or.inr he
  · rw [hp]
    exact truncate300_length p

theorem claimC10_witness :
    ((generate_subsections (fun _ => some [mkRat 3 5]) [secC8]).get
        ⟨0, by decide⟩).document = "c.pdf"
    ∧ ((generate_subsections (fun _ => some [mkRat 3 5]) [secC8]).get
        ⟨0, by decide⟩).page_number = 3
    ∧ ((generate_subsections (fun _ => some [mkRat 3 5]) [secC8]).get
        ⟨0, by decide⟩).refined_text.length ≤ 303 := by
  have h := claimC10 (fun _ => some [mkRat 3 5]) [secC8]
    (by
      intro s hs sims hsims
      rcases List.mem_singleton.mp (by simpa using hs) with rfl
      cases hsims
      decide)
    0 (by decide) (by decide)
  obtain ⟨h1, h2, h3, p, hpmem, hcase, hl⟩ := h
  exact ⟨h1.trans (by decide), h3.trans (by decide), hl⟩

/-- The TOC-to-outline mapping as the claim words it: the entry's text taken
verbatim. -/
def tocVerbatim (e : TocEntry) : OutlineEntry :=
  ⟨levelStr e.level, e.title, e.page⟩

/-- C3 (amended): a table of contents with at least 3 entries yields exactly
its first 50 entries mapped to level `H{min(depth,3)}` with *stripped* text
and unchanged page, in TOC order; fewer than 3 TOC entries (including none)
yield the font-analysis classification of the whole document, truncated to
50 entries. -/
theorem extract_outline_of_toc {doc : Doc} (h3 : 3 ≤ doc.toc.length) :
    extract_outline doc = (doc.toc.take 50).map tocMapEntry := by
  have hge : ¬ ((doc.toc.take 50).map tocMapEntry).length < 3 := by
    simp
    omega
  show (if ((doc.toc.take 50).map tocMapEntry).length < 3 then
      extract_headings_by_font_analysis doc.pages
    else (doc.toc.take 50).map tocMapEntry).take 50 = _
  rw [if_neg hge]
  show ((doc.toc.take 50).map tocMapEntry).take 50 = (doc.toc.take 50).map tocMapEntry
  rw [← List.map_take, List.take_take]
  rfl

theorem extract_outline_of_fallback {doc : Doc} (h3 : doc.toc.length < 3) :
    extract_outline doc = (extract_headings_by_font_analysis doc.pages).take 50 := by
  have hlt : ((doc.toc.take 50).map tocMapEntry).length < 3 := by
    simp
    omega
  show (if ((doc.toc.take 50).map tocMapEntry).length < 3 then
      extract_headings_by_font_analysis doc.pages
    else (doc.toc.take 50).map tocMapEntry).take 50 = _
  rw [if_pos hlt]

theorem claimC3_amended (doc : Doc) :
    (3 ≤ doc.toc.length →
      extract_outline doc = (doc.toc.take 50).map tocMapEntry)
    ∧ (doc.toc.length < 3 →
      extract_outline doc = (extract_headings_by_font_analysis doc.pages).take 50) :=
  ⟨extract_outline_of_toc, extract_outline_of_fallback⟩

def docC3 : Doc := ⟨none, [⟨1, " Intro ", 1⟩, ⟨1, "B", 2⟩, ⟨2, "C", 3⟩], []⟩

/-- C3 counterexample: the claim maps each TOC entry "with its text", but the
code strips it (`title.strip()`): on a TOC entry `" Intro "` the outline
holds `"Intro"`, so the claimed verbatim mapping differs from the outline. -/
theorem claimC3_counterexample :
    3 ≤ docC3.toc.length
    ∧ extract_outline docC3 ≠ (docC3.toc.take 50).map tocVerbatim := by
  decide

theorem claimC3_witness :
    extract_outline docC3 = (docC3.toc.take 50).map tocMapEntry
    ∧ extract_outline (⟨none, [], []⟩ : Doc) =
        (extract_headings_by_font_analysis []).take 50 := by
  exact ⟨(claimC3_amended docC3).1 (by decide),
    (claimC3_amended ⟨none, [], []⟩).2 (by decide)⟩

/-- C4 (amended): title resolution returns the *trimmed* metadata title when
it is non-empty with length > 3 (not the verbatim title, which the code
strips); otherwise, with no pages the sentinel is returned, and with a first
page the winner of the candidate scan — a candidate `(−font_size, y)`-least
among all candidates, i.e. the largest-font, topmost one — is stripped of
leading/trailing non-alphanumeric characters and returned when the result
has length > 3, the sentinel `"Unknown Document"` otherwise (also when there
is no candidate). -/
theorem claimC4_amended (doc : Doc) :
    (pyStrip (doc.metadata_title.getD "") ≠ "" ∧
        3 < (pyStrip (doc.metadata_title.getD "")).length →
      extract_title doc = pyStrip (doc.metadata_title.getD ""))
    ∧ (¬ (pyStrip (doc.metadata_title.getD "") ≠ "" ∧
        3 < (pyStrip (doc.metadata_title.getD "")).length) →
      (doc.pages = [] → extract_title doc = "Unknown Document")
      ∧ (∀ pg rest, doc.pages = pg :: rest →
          (titleCandidates pg = [] → extract_title doc = "Unknown Document")
          ∧ (∀ c, ((titleCandidates pg).insertionSort candRel).head? = some c →
              c ∈ titleCandidates pg
              ∧ (∀ x ∈ titleCandidates pg, candRel c x)
              ∧ extract_title doc =
                  (if 3 < (stripNonAlnumEnds c.1).length then stripNonAlnumEnds c.1
                   else "Unknown Document")))) := by
  constructor
  · intro hm
    simp only [extract_title]
    rw [if_pos hm]
  · intro hm
    constructor
    · intro hpages
      simp only [extract_title, hpages]
      rw [if_neg hm]
    · intro pg rest hpages
      constructor
      · intro hcand
        simp only [extract_title, hpages]
        rw [if_neg hm]
        have : ((titleCandidates pg).insertionSort candRel).head? = none := by
          rw [hcand]
          rfl
        rw [this]
      · intro c hc
        have hsorted := List.sorted_insertionSort candRel (titleCandidates pg)
        have hmemc : c ∈ titleCandidates pg := by
          have : c ∈ (titleCandidates pg).insertionSort candRel :=
            List.mem_of_mem_head? hc
          rwa [List.mem_insertionSort] at this
        refine ⟨hmemc, ?_, ?_⟩
        · intro x hx
          have hx2 : x ∈ (titleCandidates pg).insertionSort candRel := by
            rwa [List.mem_insertionSort]
          rcases heq : (titleCandidates pg).insertionSort candRel with _ | ⟨c0, tail⟩
          · rw [heq] at hx2
            cases hx2
          · rw [heq] at hc
            have hcc0 : c0 = c := by
              simpa using hc
            subst hcc0
            rw [heq] at hx2 hsorted
            rcases List.mem_cons.mp hx2 with rfl | hx3
            · exact Or.inr ⟨rfl, le_refl _⟩
            · exact (List.pairwise_cons.mp hsorted).1 x hx3
        · simp only [extract_title, hpages]
          rw [if_neg hm, hc]

def docC4 : Doc := ⟨some " My Paper ", [], []⟩

/-- C4 counterexample: the claim promises the embedded metadata title
verbatim whenever it is present with length > 3; the code strips it first,
so on the metadata title `" My Paper "` the code returns `"My Paper"`, not
the verbatim title. -/
theorem claimC4_counterexample :
    docC4.metadata_title = some " My Paper "
    ∧ 3 < (" My Paper " : String).length
    ∧ extract_title docC4 = "My Paper"
    ∧ extract_title docC4 ≠ " My Paper " := by
  decide

def docC4m : Doc := ⟨some "  My Paper  ", [], []⟩

def pgC4 : Page := ⟨100, [⟨[⟨[⟨"  The Great Title  ", 12, 0, 10⟩]⟩]⟩]⟩

def docC4h : Doc := ⟨none, [], [pgC4]⟩

theorem claimC4_witness :
    extract_title docC4m = "My Paper"
    ∧ extract_title docC4h = "The Great Title" := by
  constructor
  · exact ((claimC4_amended docC4m).1 (by decide)).trans (by decide)
  · have h := ((claimC4_amended docC4h).2 (by decide)).2 pgC4 [] rfl
    have h2 := (h.2 ("The Great Title", 12, 10) (by decide)).2.2
    exact h2.trans (by decide)

/-- C5 (amended): the outline never exceeds 50 entries, for any source; the
no-duplicate-(lowercased text, page) invariant holds for outlines produced
by the font-analysis fallback (fewer than 3 TOC entries), but not in general
for TOC-sourced outlines, which the code does not deduplicate. -/
theorem claimC5_amended (doc : Doc) :
    (extract_outline doc).length ≤ 50
    ∧ (doc.toc.length < 3 →
        (extract_outline doc).Pairwise fun a b => outlineKey a ≠ outlineKey b) := by
  constructor
  · show ((if ((doc.toc.take 50).map tocMapEntry).length < 3 then
        extract_headings_by_font_analysis doc.pages
      else (doc.toc.take 50).map tocMapEntry).take 50).length ≤ 50
    exact List.length_take_le 50 _
  · intro h3
    rw [extract_outline_of_fallback h3]
    have hPW : (extract_headings_by_font_analysis doc.pages).Pairwise
        fun a b => outlineKey a ≠ outlineKey b := by
      simp only [extract_headings_by_font_analysis]
      split
    
      · exact List.Pairwise.nil
      · have hd := (dedupHeadings_spec ((allTextBlocks doc.pages).filterMap
          (headingOfBlock (baseFontSize ((allTextBlocks doc.pages).map
            (·.font_size))))) []).1
        have hperm := List.perm_insertionSort pageRel
          (dedupHeadings [] ((allTextBlocks doc.pages).filterMap
            (headingOfBlock (baseFontSize ((allTextBlocks doc.pages).map
              (·.font_size))))))
        exact (hperm.pairwise_iff fun h e => h e.symm).mpr hd
    exact List.Pairwise.sublist (List.take_sublist 50 _) hPW

def docC5 : Doc :=
  ⟨none, [⟨1, "Intro", 1⟩, ⟨1, "Intro", 1⟩, ⟨1, "Body", 2⟩], []⟩

/-- C5 counterexample: a TOC-sourced outline is not deduplicated.  A table
of contents with a repeated entry (3 entries, so no fallback) produces an
outline with two entries sharing the key (lowercased text, page), refuting
the claim's "regardless of source". -/
theorem claimC5_counterexample :
    3 ≤ docC5.toc.length
    ∧ ¬ (extract_outline docC5).Pairwise fun a b => outlineKey a ≠ outlineKey b := by
  constructor
  · decide
  · intro h
    have houtline : extract_outline docC5 =
        [⟨"H1", "Intro", 1⟩, ⟨"H1", "Intro", 1⟩, ⟨"H1", "Body", 2⟩] := by decide
    rw [houtline] at h
    have := (List.pairwise_cons.mp h).1 ⟨"H1", "Intro", 1⟩ (List.mem_cons_self _ _)
    exact this rfl

def pagesC5 : List Page :=
  [⟨800, [⟨[⟨[⟨"regular body copy one", 10, 0, 0⟩]⟩]⟩,
          ⟨[⟨[⟨"regular body copy two", 10, 0, 0⟩]⟩]⟩,
          ⟨[⟨[⟨"regular body copy tre", 10, 0, 0⟩]⟩]⟩,
          ⟨[⟨[⟨"Big Heading Here", 20, 0, 0⟩]⟩]⟩]⟩]

def docC5w : Doc := ⟨none, [], pagesC5⟩

theorem claimC5_witness :
    (extract_outline docC5w).length ≤ 50
    ∧ (extract_outline docC5w).Pairwise fun a b => outlineKey a ≠ outlineKey b := by
  exact ⟨(claimC5_amended docC5w).1, (claimC5_amended docC5w).2 (by decide)⟩

/-- The font sizes of the lines the font-analysis pass classifies at level
`lvl` (against the document-wide base font size). -/
def classifiedSizes (pages : List Page) (lvl : String) : List ℚ :=
  let blocks := allTextBlocks pages
  let base := baseFontSize (blocks.map (·.font_size))
  (blocks.filter fun b => decide (levelOf base b = some lvl)).map (·.font_size)

theorem levelOf_H1_of_plain {base : ℚ} {b : TextBlock} (hb : b.is_bold = false)
    (h : levelOf base b = some "H1") : qMul base (mkRat 14 10) ≤ b.font_size := by
  unfold levelOf at h
  split_ifs at h with h0 h1 h2 h3 <;> simp_all

theorem levelOf_H2_of_plain {base : ℚ} {b : TextBlock} (hb : b.is_bold = false)
    (h : levelOf base b = some "H2") :
    qMul base (mkRat 12 10) ≤ b.font_size ∧ b.font_size < qMul base (mkRat 14 10) := by
  unfold levelOf at h
  split_ifs at h with h0 h1 h2 h3 <;> simp_all

theorem levelOf_H3_lt {base : ℚ} {b : TextBlock}
    (h : levelOf base b = some "H3") :
    b.font_size < qMul base (mkRat 12 10) := by
  unfold levelOf at h
  split_ifs at h with h0 h1 h2 h3 <;> simp_all

theorem classifiedSizes_mem {pages : List Page} {lvl : String} {x : ℚ}
    (hx : x ∈ classifiedSizes pages lvl) :
    ∃ b ∈ allTextBlocks pages,
      levelOf (baseFontSize ((allTextBlocks pages).map (·.font_size))) b = some lvl
      ∧ x = b.font_size := by
  simp only [classifiedSizes] at hx
  obtain ⟨b, hb, hxb⟩ := List.mem_map.mp hx
  obtain ⟨hbmem, hbl⟩ := List.mem_filter.mp hb
  exact ⟨b, hbmem, of_decide_eq_true hbl, hxb.symm⟩

/-- C9 (amended): the claimed mean ordering fails in general (bold lines
with a font barely above base are promoted to H1 past larger plain H2
lines), but it holds whenever no line is bold: without the bold promotions
every H1 line is at least 1.4x base while every H2 line is below that, and
every H2 line is at least 1.2x base while every H3 line is below that
(heading-pattern matches cannot interfere: the pattern route into H2 also
requires bold, and a line classified H3 via a pattern is still below the
1.2x-base H2 threshold), so mean(H1) ≥ mean(H2) ≥ mean(H3). -/
theorem claimC9_amended (pages : List Page)
    (hplain : ∀ b ∈ allTextBlocks pages, b.is_bold = false) :
    (classifiedSizes pages "H1" ≠ [] → classifiedSizes pages "H2" ≠ [] →
      meanQ (classifiedSizes pages "H2") ≤ meanQ (classifiedSizes pages "H1"))
    ∧ (classifiedSizes pages "H2" ≠ [] → classifiedSizes pages "H3" ≠ [] →
      meanQ (classifiedSizes pages "H3") ≤ meanQ (classifiedSizes pages "H2")) := by
  constructor
  · intro h1 h2
    apply meanQ_le_meanQ h1 h2
    intro a ha b hb
    obtain ⟨ba, hba, hla, rfl⟩ := classifiedSizes_mem ha
    obtain ⟨bb, hbb, hlb, rfl⟩ := classifiedSizes_mem hb
    have hta := levelOf_H1_of_plain (hplain ba hba) hla
    have htb := (levelOf_H2_of_plain (hplain bb hbb) hlb).2
    exact le_of_lt (lt_of_lt_of_le htb hta)
  · intro h2 h3
    apply meanQ_le_meanQ h2 h3
    intro a ha b hb
    obtain ⟨ba, hba, hla, rfl⟩ := classifiedSizes_mem ha
    obtain ⟨bb, hbb, hlb, rfl⟩ := classifiedSizes_mem hb
    have hta := (levelOf_H2_of_plain (hplain ba hba) hla).1
    have htb := levelOf_H3_lt hlb
    exact le_of_lt (lt_of_lt_of_le htb hta)

def pagesC9 : List Page :=
  [⟨800, [⟨[⟨[⟨"plain body text one", 10, 0, 0⟩]⟩]⟩,
          ⟨[⟨[⟨"plain body text two", 10, 0, 0⟩]⟩]⟩,
          ⟨[⟨[⟨"plain body text tre", 10, 0, 0⟩]⟩]⟩,
          ⟨[⟨[⟨"Bold modest heading", 11, 16, 0⟩]⟩]⟩,
          ⟨[⟨[⟨"Large plain heading", mkRat 27 2, 0, 0⟩]⟩]⟩]⟩]

/-- C9 counterexample: with base font 10, a bold line at size 11 is
classified H1 (bold and at least 1.1x base) while a plain line at size 13.5
is classified H2 (at least 1.2x base but below 1.4x base), so the mean font
size of H1 (= 11) is strictly below the mean of H2 (= 13.5). -/
theorem claimC9_counterexample :
    classifiedSizes pagesC9 "H1" = [11]
    ∧ classifiedSizes pagesC9 "H2" = [mkRat 27 2]
    ∧ meanQ (classifiedSizes pagesC9 "H1") < meanQ (classifiedSizes pagesC9 "H2") := by
  have h1 : classifiedSizes pagesC9 "H1" = [11] := by decide
  have h2 : classifiedSizes pagesC9 "H2" = [mkRat 27 2] := by decide
  refine ⟨h1, h2, ?_⟩
  rw [h1, h2]
  simp [meanQ, Rat.mkRat_eq_div]
  norm_num

def pagesC9w : List Page :=
  [⟨800, [⟨[⟨[⟨"plain body words one", 10, 0, 0⟩]⟩]⟩,
          ⟨[⟨[⟨"plain body words two", 10, 0, 0⟩]⟩]⟩,
          ⟨[⟨[⟨"plain body words tre", 10, 0, 0⟩]⟩]⟩,
          ⟨[⟨[⟨"first level heading", 14, 0, 0⟩]⟩]⟩,
          ⟨[⟨[⟨"second level heading", 12, 0, 0⟩]⟩]⟩,
          ⟨[⟨[⟨"third level heading", 11, 0, 0⟩]⟩]⟩,
          ⟨[⟨[⟨"1. numbered item here", 10, 0, 0⟩]⟩]⟩]⟩]

theorem claimC9_witness :
    meanQ (classifiedSizes pagesC9w "H2") ≤ meanQ (classifiedSizes pagesC9w "H1")
    ∧ meanQ (classifiedSizes pagesC9w "H3") ≤ meanQ (classifiedSizes pagesC9w "H2") := by
  have h := claimC9_amended pagesC9w (by decide)
  exact ⟨h.1 (by decide) (by decide), h.2 (by decide) (by decide)⟩
